import Mathlib

/-!
Verification of the node-pipeline execution engine of Narratium.ai
(src/lib/nodeflow/NodeBase.ts and the tool-dispatch layer).

JavaScript records (`Record<string, any>` / plain objects) are embedded as
association lists of key-value pairs in which a later write shadows earlier
bindings: `Store.set` prepends and `Store.get?` returns the most recent
binding.  An absent key models the JavaScript value `undefined`, so the
source test `obj[k] !== undefined` becomes `(s.get? k).isSome`.
-/

namespace Narratium

/-- A JavaScript plain-object record: key-value pairs, most recent write
first.  Absent keys model `undefined`. -/
abbrev Store (V : Type) := List (String × V)

namespace Store

variable {V : Type}

/-- Property read `obj[k]`: the most recent binding of `k`, or `none`
for `undefined`. -/
def get? : Store V → String → Option V
  | [], _ => none
  | (k', v) :: rest, k => if k' = k then some v else get? rest k

/-- Presence test: `obj[k] !== undefined`. -/
def has (s : Store V) (k : String) : Bool := (get? s k).isSome

/-- Property write `obj[k] = v` (observationally: the new binding shadows
any previous one). -/
def set (s : Store V) (k : String) (v : V) : Store V := (k, v) :: s

@[simp] theorem get?_nil (k : String) : get? ([] : Store V) k = none := rfl

@[simp] theorem get?_set (s : Store V) (k k' : String) (v : V) :
    get? (set s k v) k' = if k = k' then some v else get? s k' := rfl

@[simp] theorem get?_cons (s : Store V) (k k' : String) (v : V) :
    get? ((k, v) :: s : Store V) k' = if k = k' then some v else get? s k' := rfl

@[simp] theorem has_nil (k : String) : has ([] : Store V) k = false := rfl

theorem has_iff_isSome (s : Store V) (k : String) :
    has s k = (get? s k).isSome := rfl

end Store

/-- Modelled from the spec: the `NodeContext` class (file
src/lib/nodeflow/NodeContext.ts) is not under src/.  Spec §4.1 describes it
as three independent key-to-value stores, `input`, `cache` and `output`,
with accessors `hasInput`/`getInput`, `hasCache`/`getCache`/`setCache` and
`setOutput`/`getOutput`, where each accessor touches only its own store and
reads have no side effects. -/
structure NodeContext (V : Type) where
  input : Store V
  cache : Store V
  output : Store V
deriving DecidableEq, Repr

namespace NodeContext

variable {V : Type}

def hasInput (ctx : NodeContext V) (k : String) : Bool := Store.has ctx.input k

def getInput (ctx : NodeContext V) (k : String) : Option V := Store.get? ctx.input k

def hasCache (ctx : NodeContext V) (k : String) : Bool := Store.has ctx.cache k

def getCache (ctx : NodeContext V) (k : String) : Option V := Store.get? ctx.cache k

def setCache (ctx : NodeContext V) (k : String) (v : V) : NodeContext V :=
  { ctx with cache := Store.set ctx.cache k v }

def setOutput (ctx : NodeContext V) (k : String) (v : V) : NodeContext V :=
  { ctx with output := Store.set ctx.output k v }

def getOutput (ctx : NodeContext V) (k : String) : Option V := Store.get? ctx.output k

end NodeContext

/-- Node categories (src/lib/nodeflow/types is not under src/; the
enumeration members ENTRY, MIDDLE, EXIT and AFTER are fixed by NodeBase.ts
and spec §3). -/
inductive NodeCategory where
  | ENTRY
  | MIDDLE
  | EXIT
  | AFTER
deriving DecidableEq, Repr

/-- The `params` record assembled in the NodeBase constructor:
initParams, inputFields, outputFields and inputMapping, each defaulted to
empty when absent from the config. -/
structure NodeParams where
  initParams : List String
  inputFields : List String
  outputFields : List String
  inputMapping : Store String
deriving DecidableEq, Repr

/-- JS `inputMapping[workflowFieldName] || workflowFieldName`
(NodeBase.ts line 130): `||` takes the fallback when the looked-up value is
absent (`undefined`) or falsy (for a string, empty). -/
def mappedName (mapping : Store String) (k : String) : String :=
  match Store.get? mapping k with
  | some m => if m = "" then k else m
  | none => k

variable {V E R : Type}

/-- First loop of `NodeBase.resolveInput` (lines 120-126): for each name in
`initParams`, copy the value from the context's input store when present,
otherwise emit a diagnostic (`console.warn`, not modelled) and omit the
field. -/
def resolveInit (ctx : NodeContext V) : List String → Store V → Store V
  | [], acc => acc
  | fieldName :: rest, acc =>
    if ctx.hasInput fieldName then
      match ctx.getInput fieldName with
      | some v => resolveInit ctx rest (Store.set acc fieldName v)
      | none => resolveInit ctx rest acc
    else
      resolveInit ctx rest acc

/-- Second loop of `NodeBase.resolveInput` (lines 129-137): for each name in
`inputFields`, compute the destination key via `inputMapping` and copy the
value from the context's cache store under the original name when present,
otherwise emit a diagnostic and omit the field. -/
def resolveFields (mapping : Store String) (ctx : NodeContext V) :
    List String → Store V → Store V
  | [], acc => acc
  | workflowFieldName :: rest, acc =>
    let nodeFieldName := mappedName mapping workflowFieldName
    if ctx.hasCache workflowFieldName then
      match ctx.getCache workflowFieldName with
      | some v => resolveFields mapping ctx rest (Store.set acc nodeFieldName v)
      | none => resolveFields mapping ctx rest acc
    else
      resolveFields mapping ctx rest acc

/-- Embedding of `NodeBase.resolveInput` (lines 113-140): start from an empty resolved
input, inject `initParams` from the input store, then `inputFields` from
the cache store through `inputMapping`. -/
def resolveInput (p : NodeParams) (ctx : NodeContext V) : Store V :=
  resolveFields p.inputMapping ctx p.inputFields
    (resolveInit ctx p.initParams [])

/-- The `storeData` closure inside `NodeBase.publishOutput` (lines 145-154):
EXIT nodes write to the context's output store, every other category writes
to the cache store. -/
def storeData (category : NodeCategory) (ctx : NodeContext V) (k : String) (v : V) :
    NodeContext V :=
  match category with
  | .EXIT => ctx.setOutput k v
  | _ => ctx.setCache k v

/-- Embedding of `NodeBase.publishOutput` (lines 142-161): for each declared output
field whose value in `output` is not `undefined`, route the value through
`storeData`; undeclared fields are dropped. -/
def publishOutput (p : NodeParams) (category : NodeCategory) (output : Store V)
    (ctx : NodeContext V) : NodeContext V :=
  p.outputFields.foldl
    (fun c fieldName =>
      match Store.get? output fieldName with
      | some v => storeData category c fieldName v
      | none => c) ctx

/-- Default `NodeBase._call` (lines 200-215): when no output fields are
declared, return a copy of the whole resolved input; otherwise project the
resolved input to the declared output fields, skipping `undefined`
values. -/
def defaultCall (p : NodeParams) (input : Store V) : Store V :=
  if p.outputFields.length = 0 then
    input
  else
    p.outputFields.foldl
      (fun out field =>
        match Store.get? input field with
        | some v => Store.set out field v
        | none => out) []

/-- The `NodeExecutionStatus` members used by NodeBase.execute. -/
inductive NodeExecutionStatus where
  | RUNNING
  | COMPLETED
  | FAILED
deriving DecidableEq, Repr

/-- The `NodeExecutionResult` record as populated by `NodeBase.execute`: node id,
final status, input snapshot (set only after `beforeExecute` succeeds,
otherwise the initial empty record), optional output snapshot and optional
captured error.  The wall-clock `startTime`/`endTime` fields are not
modelled. -/
structure NodeExecutionResult (V E : Type) where
  nodeId : String
  status : NodeExecutionStatus
  input : Store V
  output : Option (Store V) := none
  error : Option E := none
deriving DecidableEq, Repr

/-- A node as `NodeBase.execute` sees it: identity, category, the declared
I/O parameters, and the three overridable steps `beforeExecute`, `_call`
(here `call`) and `afterExecute`.  Each step receives only the input or
output record, as in the source signatures, and is embedded as a fallible
function (`Except.error` models a thrown exception).  `resolveInput` and
`publishOutput` are the base-class implementations above, which no subclass
in the repository overrides. -/
structure Node (V E : Type) where
  id : String
  name : String
  category : NodeCategory
  params : NodeParams
  beforeExecute : Store V → Except E Unit
  call : Store V → Except E (Store V)
  afterExecute : Store V → Except E Unit

/-- Embedding of `NodeBase.execute` (lines 163-190): resolve the input, run
`beforeExecute`, record the input snapshot, run `_call`, publish the
output, run `afterExecute`; a `COMPLETED` result carries the `_call`
output, and an exception thrown by any step is captured into a `FAILED`
result with the error attached instead of propagating.  The returned pair
is (result, context after execution). -/
def execute (n : Node V E) (ctx : NodeContext V) :
    NodeExecutionResult V E × NodeContext V :=
  let resolved := resolveInput n.params ctx
  match n.beforeExecute resolved with
  | .error e =>
    ({ nodeId := n.id, status := .FAILED, input := [], error := some e }, ctx)
  | .ok _ =>
    match n.call resolved with
    | .error e =>
      ({ nodeId := n.id, status := .FAILED, input := resolved, error := some e }, ctx)
    | .ok out =>
      let ctx' := publishOutput n.params n.category out ctx
      match n.afterExecute out with
      | .error e =>
        ({ nodeId := n.id, status := .FAILED, input := resolved, error := some e }, ctx')
      | .ok _ =>
        ({ nodeId := n.id, status := .COMPLETED, input := resolved,
           output := some out }, ctx')

/-- Errors surfaced by the tool-dispatch layer: a method lookup failure
(the thrown message names the tool type and the requested method) or an
exception re-raised from the callable itself. -/
inductive ToolError (E : Type) where
  | methodNotFound (toolType methodName : String)
  | raised (e : E)
deriving DecidableEq, Repr

/-- A tool class as seen by `executeMethod`: its `toolType` string and its
callable static methods, keyed by name (a name absent from the store models
`typeof method !== "function"`). -/
structure ToolGroup (V E R : Type) where
  toolType : String
  methods : Store (List V → Except E R)

/-- Modelled from the spec: `NodeTool.handleError` lives in
src/lib/nodeflow/NodeTool.ts, which is not under src/.  Spec §4.3: a single
`handleError(error, methodName)` policy point that logs and re-raises, so a
failing tool call always surfaces as an execution failure. -/
def handleError (e : E) (methodName : String) : Except (ToolError E) R :=
  .error (.raised e)

/-- Embedding of `executeMethod` of WorldBookNodeTools.ts lines 37-54 (and the identical
PresetNodeTools variant): look up the method by name; when it is not a
function, throw an error naming the requested method and the tool type;
otherwise log and invoke it, routing any exception through
`handleError`. -/
def executeMethod (g : ToolGroup V E R) (methodName : String) (params : List V) :
    Except (ToolError E) R :=
  match Store.get? g.methods methodName with
  | none => .error (.methodNotFound g.toolType methodName)
  | some f =>
    match f params with
    | .ok r => .ok r
    | .error e => handleError e methodName

/-- Errors surfaced by `NodeBase.executeTool`: the missing-tool-class
rejection (its message names the node's type) or an error from the tool
layer. -/
inductive ExecError (E : Type) where
  | noToolClass (nodeName : String)
  | tool (err : ToolError E)
deriving DecidableEq, Repr

/-- Embedding of `NodeBase.initializeTools` (lines 81-92): look the node's name up in
the tool registry; bind the tool class when found, otherwise only warn —
construction succeeds either way, leaving the tool class unset.  The
registry (`NodeToolRegistry`, in NodeTool.ts, not under src/) is modelled
from spec §4.3 as a name-to-group association queried with
`get(typeName) -> group|undefined`. -/
def initializeTools (registry : Store (ToolGroup V E R)) (name : String) :
    Option (ToolGroup V E R) :=
  Store.get? registry name

/-- Embedding of `NodeBase.executeTool` (lines 94-99): when no tool class is bound,
throw "No tool class available for node type: ..." naming the node's type;
otherwise delegate to the tool class's `executeMethod`. -/
def executeTool (toolClass : Option (ToolGroup V E R)) (nodeName : String)
    (methodName : String) (params : List V) : Except (ExecError E) R :=
  match toolClass with
  | none => .error (.noToolClass nodeName)
  | some g =>
    match executeMethod g methodName params with
    | .ok r => .ok r
    | .error e => .error (.tool e)

/-- State-passing reading of `NodeContext.hasInput`: per spec §4.1 a read
has no side effect, so it returns the context unchanged. -/
def NodeContext.hasInputS (ctx : NodeContext V) (k : String) : Bool × NodeContext V :=
  (ctx.hasInput k, ctx)

/-- State-passing reading of `NodeContext.getInput`. -/
def NodeContext.getInputS (ctx : NodeContext V) (k : String) : Option V × NodeContext V :=
  (ctx.getInput k, ctx)

/-- State-passing reading of `NodeContext.hasCache`. -/
def NodeContext.hasCacheS (ctx : NodeContext V) (k : String) : Bool × NodeContext V :=
  (ctx.hasCache k, ctx)

/-- State-passing reading of `NodeContext.getCache`. -/
def NodeContext.getCacheS (ctx : NodeContext V) (k : String) : Option V × NodeContext V :=
  (ctx.getCache k, ctx)

/-- First loop of `NodeBase.resolveInput` with the context threaded
explicitly through every context-method call, making the absence of writes
a provable fact rather than a modelling assumption. -/
def resolveInitS (l : List String) (acc : Store V) (ctx : NodeContext V) :
    Store V × NodeContext V :=
  match l with
  | [] => (acc, ctx)
  | fieldName :: rest =>
    let (h, c1) := ctx.hasInputS fieldName
    if h then
      match c1.getInputS fieldName with
      | (some v, c2) => resolveInitS rest (Store.set acc fieldName v) c2
      | (none, c2) => resolveInitS rest acc c2
    else
      resolveInitS rest acc c1

/-- Second loop of `NodeBase.resolveInput` with the context threaded
explicitly. -/
def resolveFieldsS (mapping : Store String) (l : List String) (acc : Store V)
    (ctx : NodeContext V) : Store V × NodeContext V :=
  match l with
  | [] => (acc, ctx)
  | workflowFieldName :: rest =>
    let nodeFieldName := mappedName mapping workflowFieldName
    let (h, c1) := ctx.hasCacheS workflowFieldName
    if h then
      match c1.getCacheS workflowFieldName with
      | (some v, c2) => resolveFieldsS mapping rest (Store.set acc nodeFieldName v) c2
      | (none, c2) => resolveFieldsS mapping rest acc c2
    else
      resolveFieldsS mapping rest acc c1

/-- Embedding of `NodeBase.resolveInput` in state-passing form: returns the resolved
input together with the context as it stands after resolution. -/
def resolveInputS (p : NodeParams) (ctx : NodeContext V) :
    Store V × NodeContext V :=
  match resolveInitS p.initParams [] ctx with
  | (acc, ctx1) => resolveFieldsS p.inputMapping p.inputFields acc ctx1

/-- Specification helper (not from the source): the binding that the
second loop of resolveInput leaves under destination key `k` after
processing the field list, later entries shadowing earlier ones. -/
def cacheHit (mapping : Store String) (ctx : NodeContext V) :
    List String → String → Option V
  | [], _ => none
  | w :: rest, k =>
    match cacheHit mapping ctx rest k with
    | some v => some v
    | none => if mappedName mapping w = k then Store.get? ctx.cache w else none

theorem resolveInit_get? (ctx : NodeContext V) (l : List String) (acc : Store V)
    (k : String) :
    Store.get? (resolveInit ctx l acc) k =
      if k ∈ l ∧ (Store.get? ctx.input k).isSome
      then Store.get? ctx.input k else Store.get? acc k := by
  induction l generalizing acc with
  | nil => simp [resolveInit]
  | cons f rest ih =>
    cases hv : Store.get? ctx.input f with
    | none =>
      simp only [resolveInit, NodeContext.hasInput, NodeContext.getInput, Store.has, hv,
        Option.isSome_none, Bool.false_eq_true, if_false]
      rw [ih]
      by_cases hk : k = f
      · subst hk
        simp [hv]
      · simp [List.mem_cons, hk]
    | some v =>
      simp only [resolveInit, NodeContext.hasInput, NodeContext.getInput, Store.has, hv,
        Option.isSome_some, if_true]
      rw [ih]
      by_cases hk : k = f
      · subst hk
        simp [hv, List.mem_cons]
      · simp [List.mem_cons, hk, Store.get?_set, Ne.symm hk]

theorem resolveFields_get? (mapping : Store String) (ctx : NodeContext V)
    (l : List String) (acc : Store V) (k : String) :
    Store.get? (resolveFields mapping ctx l acc) k =
      match cacheHit mapping ctx l k with
      | some v => some v
      | none => Store.get? acc k := by
  induction l generalizing acc with
  | nil => simp [resolveFields, cacheHit]
  | cons w rest ih =>
    cases hv : Store.get? ctx.cache w with
    | none =>
      simp only [resolveFields, NodeContext.hasCache, NodeContext.getCache, Store.has, hv,
        Option.isSome_none, Bool.false_eq_true, if_false]
      rw [ih]
      simp only [cacheHit, hv]
      cases cacheHit mapping ctx rest k with
      | none => by_cases hm : mappedName mapping w = k <;> simp [hm]
      | some u => rfl
    | some v =>
      simp only [resolveFields, NodeContext.hasCache, NodeContext.getCache, Store.has, hv,
        Option.isSome_some, if_true]
      rw [ih]
      simp only [cacheHit, hv]
      cases cacheHit mapping ctx rest k with
      | none =>
        by_cases hm : mappedName mapping w = k <;>
          simp [hm, Store.get?_set]
      | some u => rfl

/-- Per-key characterisation of `NodeBase.resolveInput`: the second loop's
last cache hit wins, otherwise an `initParams` injection, otherwise the
key is absent. -/
theorem resolveInput_get? (p : NodeParams) (ctx : NodeContext V) (k : String) :
    Store.get? (resolveInput p ctx) k =
      match cacheHit p.inputMapping ctx p.inputFields k with
      | some v => some v
      | none =>
        if k ∈ p.initParams ∧ (Store.get? ctx.input k).isSome
        then Store.get? ctx.input k else none := by
  unfold resolveInput
  rw [resolveFields_get?]
  cases cacheHit p.inputMapping ctx p.inputFields k with
  | none => simp [resolveInit_get?]
  | some v => rfl

theorem cacheHit_isSome (mapping : Store String) (ctx : NodeContext V)
    (l : List String) (k : String) :
    (cacheHit mapping ctx l k).isSome = true ↔
      ∃ w ∈ l, mappedName mapping w = k ∧ Store.has ctx.cache w = true := by
  induction l with
  | nil => simp [cacheHit]
  | cons w rest ih =>
    simp only [cacheHit]
    cases hr : cacheHit mapping ctx rest k with
    | some u =>
      simp only [Option.isSome_some, true_iff]
      rw [hr] at ih
      obtain ⟨w', hw', hm', hc'⟩ := ih.mp (by simp)
      exact ⟨w', List.mem_cons_of_mem _ hw', hm', hc'⟩
    | none =>
      rw [hr] at ih
      simp only [Option.isSome_none, Bool.false_eq_true, false_iff] at ih
      by_cases hm : mappedName mapping w = k
      · simp only [hm, if_true]
        constructor
        · intro hs
          exact ⟨w, List.mem_cons_self _ _, hm, by
            simpa [Store.has] using hs⟩
        · intro ⟨w', hw', hm', hc'⟩
          rcases List.mem_cons.mp hw' with h | h
          · subst h
            simpa [Store.has] using hc'
          · exact absurd ⟨w', h, hm', hc'⟩ ih
      · simp only [hm, if_false]
        constructor
        · intro hs
          simp at hs
        · intro ⟨w', hw', hm', hc'⟩
          rcases List.mem_cons.mp hw' with h | h
          · subst h
            exact absurd hm' hm
          · exact absurd ⟨w', h, hm', hc'⟩ ih

theorem resolveInitS_eq (l : List String) (acc : Store V) (ctx : NodeContext V) :
    resolveInitS l acc ctx = (resolveInit ctx l acc, ctx) := by
  induction l generalizing acc with
  | nil => rfl
  | cons f rest ih =>
    simp only [resolveInitS, resolveInit, NodeContext.hasInputS, NodeContext.getInputS]
    cases hv : ctx.getInput f with
    | none =>
      by_cases h : ctx.hasInput f <;> simp [h, hv, ih]
    | some v =>
      by_cases h : ctx.hasInput f <;> simp [h, hv, ih]

theorem resolveFieldsS_eq (mapping : Store String) (l : List String) (acc : Store V)
    (ctx : NodeContext V) :
    resolveFieldsS mapping l acc ctx = (resolveFields mapping ctx l acc, ctx) := by
  induction l generalizing acc with
  | nil => rfl
  | cons w rest ih =>
    simp only [resolveFieldsS, resolveFields, NodeContext.hasCacheS, NodeContext.getCacheS]
    cases hv : ctx.getCache w with
    | none =>
      by_cases h : ctx.hasCache w <;> simp [h, hv, ih]
    | some v =>
      by_cases h : ctx.hasCache w <;> simp [h, hv, ih]

theorem resolveInputS_eq (p : NodeParams) (ctx : NodeContext V) :
    resolveInputS p ctx = (resolveInput p ctx, ctx) := by
  unfold resolveInputS resolveInput
  rw [resolveInitS_eq]
  exact resolveFieldsS_eq _ _ _ _

theorem storeData_input (cat : NodeCategory) (ctx : NodeContext V) (k : String) (v : V) :
    (storeData cat ctx k v).input = ctx.input := by
  cases cat <;> rfl

theorem storeData_nonEXIT (cat : NodeCategory) (h : cat ≠ .EXIT)
    (ctx : NodeContext V) (k : String) (v : V) :
    storeData cat ctx k v = ctx.setCache k v := by
  cases cat <;> first | rfl | exact absurd rfl h

theorem publishOutput_input (p : NodeParams) (cat : NodeCategory) (out : Store V)
    (ctx : NodeContext V) :
    (publishOutput p cat out ctx).input = ctx.input := by
  unfold publishOutput
  generalize p.outputFields = l
  induction l generalizing ctx with
  | nil => rfl
  | cons f rest ih =>
    rw [List.foldl_cons, ih]
    cases hv : Store.get? out f with
    | none => simp [hv]
    | some v =>
      simp only [hv]
      exact storeData_input cat ctx f v

theorem publishOutput_cache_exit (p : NodeParams) (out : Store V) (ctx : NodeContext V) :
    (publishOutput p .EXIT out ctx).cache = ctx.cache := by
  unfold publishOutput
  generalize p.outputFields = l
  induction l generalizing ctx with
  | nil => rfl
  | cons f rest ih =>
    rw [List.foldl_cons, ih]
    cases hv : Store.get? out f with
    | none => simp [hv]
    | some v => simp only [hv]; rfl

theorem publishOutput_output_exit (p : NodeParams) (out : Store V) (ctx : NodeContext V)
    (k : String) :
    Store.get? (publishOutput p .EXIT out ctx).output k =
      if k ∈ p.outputFields ∧ (Store.get? out k).isSome
      then Store.get? out k else Store.get? ctx.output k := by
  unfold publishOutput
  generalize p.outputFields = l
  induction l generalizing ctx with
  | nil => simp
  | cons f rest ih =>
    rw [List.foldl_cons, ih]
    cases hv : Store.get? out f with
    | none =>
      simp only [hv]
      by_cases hk : k = f
      · subst hk
        simp [hv]
      · simp [List.mem_cons, hk]
    | some v =>
      simp only [hv]
      by_cases hk : k = f
      · subst hk
        simp [hv, List.mem_cons, storeData, NodeContext.setOutput]
      · simp [List.mem_cons, hk, storeData, NodeContext.setOutput, Store.get?_set,
          Ne.symm hk]

theorem publishOutput_output_nonexit (p : NodeParams) (cat : NodeCategory)
    (h : cat ≠ .EXIT) (out : Store V) (ctx : NodeContext V) :
    (publishOutput p cat out ctx).output = ctx.output := by
  unfold publishOutput
  generalize p.outputFields = l
  induction l generalizing ctx with
  | nil => rfl
  | cons f rest ih =>
    rw [List.foldl_cons, ih]
    cases hv : Store.get? out f with
    | none => simp [hv]
    | some v =>
      simp only [hv]
      rw [storeData_nonEXIT cat h]
      rfl

theorem publishOutput_cache_nonexit (p : NodeParams) (cat : NodeCategory)
    (h : cat ≠ .EXIT) (out : Store V) (ctx : NodeContext V) (k : String) :
    Store.get? (publishOutput p cat out ctx).cache k =
      if k ∈ p.outputFields ∧ (Store.get? out k).isSome
      then Store.get? out k else Store.get? ctx.cache k := by
  unfold publishOutput
  generalize p.outputFields = l
  induction l generalizing ctx with
  | nil => simp
  | cons f rest ih =>
    rw [List.foldl_cons, ih]
    cases hv : Store.get? out f with
    | none =>
      simp only [hv]
      by_cases hk : k = f
      · subst hk
        simp [hv]
      · simp [List.mem_cons, hk]
    | some v =>
      simp only [hv]
      rw [storeData_nonEXIT cat h]
      by_cases hk : k = f
      · subst hk
        simp [hv, List.mem_cons, NodeContext.setCache]
      · simp [List.mem_cons, hk, NodeContext.setCache, Store.get?_set, Ne.symm hk]

theorem resolveInit_congr (c1 c2 : NodeContext V) (h : c1.input = c2.input)
    (l : List String) (acc : Store V) :
    resolveInit c1 l acc = resolveInit c2 l acc := by
  induction l generalizing acc with
  | nil => rfl
  | cons f rest ih =>
    simp only [resolveInit, NodeContext.hasInput, NodeContext.getInput, h]
    cases hv : Store.get? c2.input f with
    | none => simp [Store.has, hv, ih]
    | some v => simp [Store.has, hv, ih]

theorem resolveFields_congr (mapping : Store String) (c1 c2 : NodeContext V)
    (h : c1.cache = c2.cache) (l : List String) (acc : Store V) :
    resolveFields mapping c1 l acc = resolveFields mapping c2 l acc := by
  induction l generalizing acc with
  | nil => rfl
  | cons w rest ih =>
    simp only [resolveFields, NodeContext.hasCache, NodeContext.getCache, h]
    cases hv : Store.get? c2.cache w with
    | none => simp [Store.has, hv, ih]
    | some v => simp [Store.has, hv, ih]

theorem projectFold_get? (input : Store V) (l : List String) (acc : Store V) (k : String) :
    Store.get?
      (l.foldl
        (fun out field =>
          match Store.get? input field with
          | some v => Store.set out field v
          | none => out) acc) k =
      if k ∈ l ∧ (Store.get? input k).isSome
      then Store.get? input k else Store.get? acc k := by
  induction l generalizing acc with
  | nil => simp
  | cons f rest ih =>
    rw [List.foldl_cons, ih]
    cases hv : Store.get? input f with
    | none =>
      simp only [hv]
      by_cases hk : k = f
      · subst hk
        simp [hv]
      · simp [List.mem_cons, hk]
    | some v =>
      simp only [hv]
      by_cases hk : k = f
      · subst hk
        simp [hv, List.mem_cons]
      · simp [List.mem_cons, hk, Store.get?_set, Ne.symm hk]

/-- Concrete EXIT-shaped parameters used by witnesses: one declared output
field "a". -/
def paramsOutA : NodeParams := ⟨[], [], ["a"], []⟩

/-- The empty execution context over natural-number values. -/
def emptyCtx : NodeContext Nat := ⟨[], [], []⟩

/-- C1: publishOutput writes exactly the fields declared in outputFields
and present in the output map — to the context's output store for an EXIT
node and to its cache store for every other category — and a field present
in the output but not declared in outputFields is written to neither
store. -/
theorem publishOutput_writes_exactly_declared (p : NodeParams) (cat : NodeCategory)
    (out : Store V) (ctx : NodeContext V) (k : String) :
    (publishOutput p cat out ctx).input = ctx.input ∧
    (cat = .EXIT →
      (publishOutput p cat out ctx).cache = ctx.cache ∧
      Store.get? (publishOutput p cat out ctx).output k =
        (if k ∈ p.outputFields ∧ (Store.get? out k).isSome
         then Store.get? out k else Store.get? ctx.output k)) ∧
    (cat ≠ .EXIT →
      (publishOutput p cat out ctx).output = ctx.output ∧
      Store.get? (publishOutput p cat out ctx).cache k =
        (if k ∈ p.outputFields ∧ (Store.get? out k).isSome
         then Store.get? out k else Store.get? ctx.cache k)) := by
  refine ⟨publishOutput_input p cat out ctx, fun h => ?_, fun h => ?_⟩
  · subst h
    exact ⟨publishOutput_cache_exit p out ctx, publishOutput_output_exit p out ctx k⟩
  · exact ⟨publishOutput_output_nonexit p cat h out ctx,
      publishOutput_cache_nonexit p cat h out ctx k⟩

/-- Witness for C1: an EXIT node with outputFields = ["a"] and output
a = 1 writes context.output.a = 1 leaving the cache untouched; a MIDDLE
node with the same output writes context.cache.a = 1 leaving the output
untouched. -/
theorem publishOutput_writes_exactly_declared_witness :
    Store.get? (publishOutput paramsOutA .EXIT [("a", 1)] emptyCtx).output "a" = some 1 ∧
    (publishOutput paramsOutA .EXIT [("a", 1)] emptyCtx).cache = [] ∧
    Store.get? (publishOutput paramsOutA .MIDDLE [("a", 1)] emptyCtx).cache "a" = some 1 ∧
    (publishOutput paramsOutA .MIDDLE [("a", 1)] emptyCtx).output = [] := by
  have hE := (publishOutput_writes_exactly_declared paramsOutA .EXIT
    [("a", 1)] emptyCtx "a").2.1 rfl
  have hM := (publishOutput_writes_exactly_declared paramsOutA .MIDDLE
    [("a", 1)] emptyCtx "a").2.2 (by decide)
  refine ⟨?_, hE.1, ?_, hM.1⟩
  · rw [hE.2]
    decide
  · rw [hM.2]
    decide

/-- C2: resolveInput never fails on a missing field — a key is present in
the resolved input exactly when it is an initParams name present in the
input store or the mapped destination of an inputFields name present in
the cache; in particular an ENTRY node with initParams = ["x", "y"] run
with only x supplied resolves to an input holding exactly x. -/
theorem resolveInput_missing_fields_omitted (p : NodeParams) (ctx : NodeContext V)
    (k : String) :
    (Store.has (resolveInput p ctx) k = true ↔
      ((k ∈ p.initParams ∧ Store.has ctx.input k = true) ∨
        ∃ w ∈ p.inputFields,
          mappedName p.inputMapping w = k ∧ Store.has ctx.cache w = true)) ∧
    (∀ v : V, resolveInput ⟨["x", "y"], [], [], []⟩ ⟨[("x", v)], [], []⟩ = [("x", v)]) := by
  constructor
  · unfold Store.has
    rw [resolveInput_get?]
    cases hc : cacheHit p.inputMapping ctx p.inputFields k with
    | some v =>
      simp only [Option.isSome_some, true_iff]
      exact Or.inr ((cacheHit_isSome p.inputMapping ctx p.inputFields k).mp
        (by rw [hc]; rfl))
    | none =>
      have hnone : ¬ ∃ w ∈ p.inputFields,
          mappedName p.inputMapping w = k ∧ Store.has ctx.cache w = true := by
        intro hex
        have := (cacheHit_isSome p.inputMapping ctx p.inputFields k).mpr hex
        rw [hc] at this
        simp at this
      constructor
      · intro hs
        by_cases hcond : k ∈ p.initParams ∧ (Store.get? ctx.input k).isSome
        · exact Or.inl ⟨hcond.1, hcond.2⟩
        · rw [if_neg hcond] at hs
          simp at hs
      · intro hor
        rcases hor with ⟨hmem, hin⟩ | hex
        · have hcond : k ∈ p.initParams ∧ (Store.get? ctx.input k).isSome = true :=
            ⟨hmem, hin⟩
          rw [if_pos hcond]
          exact hcond.2
        · exact absurd hex hnone
  · intro v
    rfl

/-- C3: resolveInput uses inputMapping[name] (defaulting to the name) as
the destination key while reading the value from the cache under the
original name; with inputFields = ["userInput"] and mapping userInput to
currentUserInput, a cache holding userInput = v resolves to an input with
currentUserInput = v and without the key userInput. -/
theorem resolveInput_applies_inputMapping (p : NodeParams) (ctx : NodeContext V)
    (w : String) (hw : w ∈ p.inputFields) (hc : Store.has ctx.cache w = true) :
    Store.has (resolveInput p ctx) (mappedName p.inputMapping w) = true ∧
    (∀ v : V,
      Store.get? (resolveInput ⟨[], ["userInput"], [], [("userInput", "currentUserInput")]⟩
        ⟨[], [("userInput", v)], []⟩) "currentUserInput" = some v ∧
      Store.get? (resolveInput ⟨[], ["userInput"], [], [("userInput", "currentUserInput")]⟩
        ⟨[], [("userInput", v)], []⟩) "userInput" = none) := by
  constructor
  · have hex : ∃ w' ∈ p.inputFields,
        mappedName p.inputMapping w' = mappedName p.inputMapping w ∧
          Store.has ctx.cache w' = true := ⟨w, hw, rfl, hc⟩
    have hsome := (cacheHit_isSome p.inputMapping ctx p.inputFields
      (mappedName p.inputMapping w)).mpr hex
    unfold Store.has
    rw [resolveInput_get?]
    cases hcc : cacheHit p.inputMapping ctx p.inputFields (mappedName p.inputMapping w) with
    | some v => rfl
    | none =>
      rw [hcc] at hsome
      simp at hsome
  · intro v
    exact ⟨rfl, rfl⟩

/-- Witness for C3: a node with inputFields = ["quote"] mapped to "line"
and a cache holding quote = 7 resolves an input that has the key
"line". -/
theorem resolveInput_applies_inputMapping_witness :
    Store.has
      (resolveInput ⟨[], ["quote"], [], [("quote", "line")]⟩
        (⟨[], [("quote", 7)], []⟩ : NodeContext Nat))
      (mappedName [("quote", "line")] "quote") = true :=
  (resolveInput_applies_inputMapping ⟨[], ["quote"], [], [("quote", "line")]⟩
    ⟨[], [("quote", 7)], []⟩ "quote" (by decide) (by decide)).1

/-- C4: execute runs resolveInput, beforeExecute, _call, publishOutput and
afterExecute in that order; an error raised at any step is captured into a
FAILED result carrying that error (nothing propagates out of execute), the
context update of publishOutput happens before afterExecute runs, and on
the all-steps-succeed path the result is COMPLETED with the _call output
attached. -/
theorem execute_lifecycle_order (n : Node V E) (ctx : NodeContext V) :
    (∀ e, n.beforeExecute (resolveInput n.params ctx) = .error e →
      execute n ctx =
        ({ nodeId := n.id, status := .FAILED, input := [], output := none,
           error := some e }, ctx)) ∧
    (∀ e, n.beforeExecute (resolveInput n.params ctx) = .ok () →
      n.call (resolveInput n.params ctx) = .error e →
      execute n ctx =
        ({ nodeId := n.id, status := .FAILED, input := resolveInput n.params ctx,
           output := none, error := some e }, ctx)) ∧
    (∀ out e, n.beforeExecute (resolveInput n.params ctx) = .ok () →
      n.call (resolveInput n.params ctx) = .ok out →
      n.afterExecute out = .error e →
      execute n ctx =
        ({ nodeId := n.id, status := .FAILED, input := resolveInput n.params ctx,
           output := none, error := some e },
         publishOutput n.params n.category out ctx)) ∧
    (∀ out, n.beforeExecute (resolveInput n.params ctx) = .ok () →
      n.call (resolveInput n.params ctx) = .ok out →
      n.afterExecute out = .ok () →
      execute n ctx =
        ({ nodeId := n.id, status := .COMPLETED, input := resolveInput n.params ctx,
           output := some out, error := none },
         publishOutput n.params n.category out ctx)) := by
  refine ⟨fun e hb => ?_, fun e hb hc => ?_, fun out e hb hc ha => ?_,
    fun out hb hc ha => ?_⟩
  · simp only [execute, hb]
  · simp only [execute, hb, hc]
  · simp only [execute, hb, hc, ha]
  · simp only [execute, hb, hc, ha]

/-- A node whose _call throws, used to witness the error capture of
execute. -/
def nodeCallFails : Node Nat String :=
  { id := "n1", name := "llm", category := .MIDDLE,
    params := ⟨[], [], [], []⟩,
    beforeExecute := fun _ => .ok (),
    call := fun _ => .error "boom",
    afterExecute := fun _ => .ok () }

/-- Witness for C4: a node whose _call throws yields a FAILED result
carrying the error, with the context untouched. -/
theorem execute_lifecycle_order_witness :
    execute nodeCallFails emptyCtx =
      ({ nodeId := "n1", status := .FAILED, input := [], output := none,
         error := some "boom" }, emptyCtx) :=
  (execute_lifecycle_order nodeCallFails emptyCtx).2.1 "boom" rfl rfl

/-- C5: the default _call returns a copy of the entire resolved input when
outputFields is empty, and otherwise the restriction of the resolved input
to the declared outputFields, a declared field appearing exactly when its
value in the input is defined. -/
theorem defaultCall_echo_or_project (p : NodeParams) (input : Store V) (k : String) :
    (p.outputFields = [] → defaultCall p input = input) ∧
    (p.outputFields ≠ [] →
      Store.get? (defaultCall p input) k =
        if k ∈ p.outputFields then Store.get? input k else none) := by
  constructor
  · intro h
    unfold defaultCall
    simp [h]
  · intro h
    unfold defaultCall
    rw [if_neg (by simpa using h), projectFold_get?]
    by_cases hk : k ∈ p.outputFields
    · cases hv : Store.get? input k with
      | none => simp [hk, hv]
      | some v => simp [hk, hv]
    · simp [hk]

/-- Witness for C5: with no declared outputFields the input comes back
whole; with outputFields = ["a"], field a survives and field b is
dropped. -/
theorem defaultCall_echo_or_project_witness :
    defaultCall ⟨[], [], [], []⟩ [("x", (1 : Nat))] = [("x", 1)] ∧
    Store.get? (defaultCall paramsOutA [("a", (2 : Nat)), ("b", 3)]) "a" = some 2 ∧
    Store.get? (defaultCall paramsOutA [("a", (2 : Nat)), ("b", 3)]) "b" = none := by
  refine ⟨(defaultCall_echo_or_project ⟨[], [], [], []⟩ [("x", 1)] "x").1 rfl, ?_, ?_⟩
  · rw [(defaultCall_echo_or_project paramsOutA [("a", 2), ("b", 3)] "a").2 (by decide)]
    decide
  · rw [(defaultCall_echo_or_project paramsOutA [("a", 2), ("b", 3)] "b").2 (by decide)]
    decide

/-- C6: executeMethod fails with an error naming the tool type and the
requested method when the group has no callable of that name, and when the
callable exists but raises, the error goes through the handleError policy
point which re-raises it, so the invocation never resolves successfully
after its callable threw. -/
theorem executeMethod_error_policy (g : ToolGroup V E R) (m : String) (ps : List V) :
    (Store.get? g.methods m = none →
      executeMethod g m ps = .error (.methodNotFound g.toolType m)) ∧
    (∀ f e, Store.get? g.methods m = some f → f ps = .error e →
      executeMethod g m ps = .error (.raised e)) := by
  constructor
  · intro h
    simp only [executeMethod, h]
  · intro f e hf he
    simp only [executeMethod, hf, he, handleError]

/-- A tool group with a single method that always throws, used to witness
the dispatch error policy. -/
def boomGroup : ToolGroup Nat String Nat :=
  { toolType := "worldBook",
    methods := [("boom", fun _ => .error "fail")] }

/-- Witness for C6: looking up an unknown method yields the
method-not-found error naming type and method, and invoking the throwing
method surfaces the raised error. -/
theorem executeMethod_error_policy_witness :
    executeMethod boomGroup "missing" [] = .error (.methodNotFound "worldBook" "missing") ∧
    executeMethod boomGroup "boom" [] = .error (.raised "fail") :=
  ⟨(executeMethod_error_policy boomGroup "missing" []).1 rfl,
    (executeMethod_error_policy boomGroup "boom" []).2 (fun _ => .error "fail") "fail" rfl rfl⟩

/-- C7: resolveInput consults only the input and cache stores, so two
contexts that agree on input and cache but differ arbitrarily in the
output store resolve to identical inputs. -/
theorem resolveInput_independent_of_output (p : NodeParams) (c1 c2 : NodeContext V)
    (hin : c1.input = c2.input) (hca : c1.cache = c2.cache) :
    resolveInput p c1 = resolveInput p c2 := by
  unfold resolveInput
  rw [resolveInit_congr c1 c2 hin]
  exact resolveFields_congr p.inputMapping c1 c2 hca p.inputFields _

/-- Witness for C7: two contexts identical except for an extra key in the
output store resolve to the same input. -/
theorem resolveInput_independent_of_output_witness :
    resolveInput ⟨["x"], ["y"], [], []⟩ (⟨[("x", 1)], [("y", 2)], []⟩ : NodeContext Nat) =
      resolveInput ⟨["x"], ["y"], [], []⟩ ⟨[("x", 1)], [("y", 2)], [("secret", 9)]⟩ :=
  resolveInput_independent_of_output ⟨["x"], ["y"], [], []⟩
    ⟨[("x", 1)], [("y", 2)], []⟩ ⟨[("x", 1)], [("y", 2)], [("secret", 9)]⟩ rfl rfl

/-- C8: resolution is deterministic and idempotent with respect to context
state — it leaves the context unchanged, and running it again on the
resulting context reproduces the same resolved input and context. -/
theorem resolveInputS_no_mutation_idempotent (p : NodeParams) (ctx : NodeContext V) :
    (resolveInputS p ctx).2 = ctx ∧
    resolveInputS p ((resolveInputS p ctx).2) = resolveInputS p ctx := by
  rw [resolveInputS_eq]
  exact ⟨rfl, by rw [resolveInputS_eq]⟩

/-- A MIDDLE node that produces a = 1 and whose afterExecute hook throws,
used to show a FAILED result can follow a completed publishOutput. -/
def nodeAfterThrows : Node Nat String :=
  { id := "n2", name := "context", category := .MIDDLE,
    params := ⟨[], [], ["a"], []⟩,
    beforeExecute := fun _ => .ok (),
    call := fun _ => .ok [("a", 1)],
    afterExecute := fun _ => .error "after hook failed" }

/-- C9: a FAILED execution result does not imply the context is unchanged:
for the node above, execute reports FAILED with the afterExecute error
attached even though the declared output field a has already been written
to the cache (it was absent before the run). -/
theorem execute_failed_after_publish :
    (execute nodeAfterThrows emptyCtx).1.status = .FAILED ∧
    (execute nodeAfterThrows emptyCtx).1.error = some "after hook failed" ∧
    Store.get? (execute nodeAfterThrows emptyCtx).2.cache "a" = some 1 ∧
    Store.get? emptyCtx.cache "a" = none :=
  ⟨rfl, rfl, rfl, rfl⟩

/-- C10: a node whose type name has no registered tool class is still
constructed (initializeTools merely leaves the tool class unset), and any
subsequent executeTool call rejects with the error naming the node's type,
whatever method is requested. -/
theorem executeTool_rejects_missing_toolclass (registry : Store (ToolGroup V E R))
    (name m : String) (ps : List V) (h : Store.get? registry name = none) :
    initializeTools registry name = none ∧
    executeTool (initializeTools registry name) name m ps =
      .error (.noToolClass name) := by
  unfold initializeTools executeTool
  rw [h]
  exact ⟨rfl, rfl⟩

/-- Witness for C10: with an empty registry, a node named "scene" is
constructed without a tool class and executeTool rejects naming that
type. -/
theorem executeTool_rejects_missing_toolclass_witness :
    executeTool (initializeTools ([] : Store (ToolGroup Nat String Nat)) "scene")
      "scene" "anyMethod" [] = .error (.noToolClass "scene") :=
  (executeTool_rejects_missing_toolclass [] "scene" "anyMethod" [] rfl).2

end Narratium
